import Mathlib

/-! Register surface of the LOCK FPGA controller (fpga_lock.h)

A shallow embedding of the header src/fpga_lock.h: the record lock_reg_t is a
sequence of 32-bit fields, each declared int32_t or uint32_t and documented
with a byte offset and a data-bit range [w-1:0].  The table below transcribes,
field by field and in declaration order, the C type and the two documented
numbers of every field.
-/

namespace FpgaLock

/-- Base LOCK FPGA address (macro LOCK_BASE_ADDR). -/
def LOCK_BASE_ADDR : Nat := 0x40600000

/-- Base LOCK FPGA core size in bytes (macro LOCK_BASE_SIZE). -/
def LOCK_BASE_SIZE : Nat := 0x190

/-- The field names of the record lock_reg_t, in declaration order. -/
inductive Reg where
  | oscA_sw | oscB_sw | osc_ctrl | trig_sw | out1_sw | out2_sw
  | lock_control | lock_feedback | lock_trig_val | lock_trig_time | lock_trig_sw | rl_error_threshold
  | rl_signal_sw | rl_signal_threshold | rl_config | rl_state | sf_jumpA | sf_jumpB
  | sf_config | signal_sw | signal_i | sg_amp1 | sg_amp2 | sg_amp3
  | lpf_F1 | lpf_F2 | lpf_F3 | error_sw | error_offset | error
  | error_mean | error_std | gen_mod_phase | gen_mod_hp | ramp_A | ramp_B
  | ramp_step | ramp_low_lim | ramp_hig_lim | ramp_reset | ramp_enable | ramp_direction
  | ramp_B_factor | sin_ref | cos_ref | cos_1f | cos_2f | cos_3f
  | in1 | in2 | out1 | out2 | oscA | oscB
  | X_28 | Y_28 | F1_28 | F2_28 | F3_28 | cnt_clk
  | cnt_clk2 | read_ctrl | pidA_sw | pidA_PSR | pidA_ISR | pidA_DSR
  | pidA_SAT | pidA_sp | pidA_kp | pidA_ki | pidA_kd | pidA_in
  | pidA_out | pidA_ctrl | ctrl_A | pidB_sw | pidB_PSR | pidB_ISR
  | pidB_DSR | pidB_SAT | pidB_sp | pidB_kp | pidB_ki | pidB_kd
  | pidB_in | pidB_out | pidB_ctrl | ctrl_B | aux_A | aux_B
  deriving DecidableEq, Repr

/-- One field of lock_reg_t: its name, whether its C type is int32_t (signed)
or uint32_t, the byte offset written in its comment, and the number of data
bits written in its comment (bits [width-1:0] are Data, the rest Reserved). -/
structure Field where
  name : Reg
  signed : Bool
  docOffset : Nat
  width : Nat
  deriving DecidableEq, Repr

/-- A field declared with the C type uint32_t. -/
def uint32_t (name : Reg) (docOffset width : Nat) : Field := ⟨name, false, docOffset, width⟩

/-- A field declared with the C type int32_t. -/
def int32_t (name : Reg) (docOffset width : Nat) : Field := ⟨name, true, docOffset, width⟩

/-- The record lock_reg_t: every field in declaration order. -/
def lock_reg_t : List Field := [
  uint32_t Reg.oscA_sw 0x00 5,
  uint32_t Reg.oscB_sw 0x04 5,
  uint32_t Reg.osc_ctrl 0x08 2,
  uint32_t Reg.trig_sw 0x0C 8,
  uint32_t Reg.out1_sw 0x10 4,
  uint32_t Reg.out2_sw 0x14 4,
  uint32_t Reg.lock_control 0x18 11,
  uint32_t Reg.lock_feedback 0x1C 11,
  int32_t  Reg.lock_trig_val 0x20 14,
  uint32_t Reg.lock_trig_time 0x24 32,
  uint32_t Reg.lock_trig_sw 0x28 4,
  uint32_t Reg.rl_error_threshold 0x2C 13,
  uint32_t Reg.rl_signal_sw 0x30 3,
  int32_t  Reg.rl_signal_threshold 0x34 14,
  uint32_t Reg.rl_config 0x38 3,
  uint32_t Reg.rl_state 0x3C 5,
  int32_t  Reg.sf_jumpA 0x40 14,
  int32_t  Reg.sf_jumpB 0x44 14,
  uint32_t Reg.sf_config 0x48 5,
  uint32_t Reg.signal_sw 0x4C 4,
  int32_t  Reg.signal_i 0x50 14,
  uint32_t Reg.sg_amp1 0x54 4,
  uint32_t Reg.sg_amp2 0x58 4,
  uint32_t Reg.sg_amp3 0x5C 4,
  uint32_t Reg.lpf_F1 0x60 6,
  uint32_t Reg.lpf_F2 0x64 6,
  uint32_t Reg.lpf_F3 0x68 6,
  uint32_t Reg.error_sw 0x6C 3,
  int32_t  Reg.error_offset 0x70 14,
  int32_t  Reg.error 0x74 14,
  int32_t  Reg.error_mean 0x78 32,
  int32_t  Reg.error_std 0x7C 32,
  uint32_t Reg.gen_mod_phase 0x80 12,
  uint32_t Reg.gen_mod_hp 0x84 14,
  int32_t  Reg.ramp_A 0x88 14,
  int32_t  Reg.ramp_B 0x8C 14,
  uint32_t Reg.ramp_step 0x90 32,
  int32_t  Reg.ramp_low_lim 0x94 14,
  int32_t  Reg.ramp_hig_lim 0x98 14,
  uint32_t Reg.ramp_reset 0x9C 1,
  uint32_t Reg.ramp_enable 0xA0 1,
  uint32_t Reg.ramp_direction 0xA4 1,
  int32_t  Reg.ramp_B_factor 0xA8 14,
  int32_t  Reg.sin_ref 0xAC 14,
  int32_t  Reg.cos_ref 0xB0 14,
  int32_t  Reg.cos_1f 0xB4 14,
  int32_t  Reg.cos_2f 0xB8 14,
  int32_t  Reg.cos_3f 0xBC 14,
  int32_t  Reg.in1 0xC0 14,
  int32_t  Reg.in2 0xC4 14,
  int32_t  Reg.out1 0xC8 14,
  int32_t  Reg.out2 0xCC 14,
  int32_t  Reg.oscA 0xD0 14,
  int32_t  Reg.oscB 0xD4 14,
  int32_t  Reg.X_28 0xD8 28,
  int32_t  Reg.Y_28 0xDC 28,
  int32_t  Reg.F1_28 0xE0 28,
  int32_t  Reg.F2_28 0xE4 28,
  int32_t  Reg.F3_28 0xE8 28,
  uint32_t Reg.cnt_clk 0xEC 32,
  uint32_t Reg.cnt_clk2 0xF0 32,
  uint32_t Reg.read_ctrl 0xF4 3,
  uint32_t Reg.pidA_sw 0xF8 5,
  uint32_t Reg.pidA_PSR 0xFC 3,
  uint32_t Reg.pidA_ISR 0x100 4,
  uint32_t Reg.pidA_DSR 0x104 3,
  uint32_t Reg.pidA_SAT 0x108 14,
  int32_t  Reg.pidA_sp 0x10C 14,
  int32_t  Reg.pidA_kp 0x110 14,
  int32_t  Reg.pidA_ki 0x114 14,
  int32_t  Reg.pidA_kd 0x118 14,
  int32_t  Reg.pidA_in 0x11C 14,
  int32_t  Reg.pidA_out 0x120 14,
  uint32_t Reg.pidA_ctrl 0x124 3,
  int32_t  Reg.ctrl_A 0x128 14,
  uint32_t Reg.pidB_sw 0x12C 5,
  uint32_t Reg.pidB_PSR 0x130 3,
  uint32_t Reg.pidB_ISR 0x134 4,
  uint32_t Reg.pidB_DSR 0x138 3,
  uint32_t Reg.pidB_SAT 0x13C 14,
  int32_t  Reg.pidB_sp 0x140 14,
  int32_t  Reg.pidB_kp 0x144 14,
  int32_t  Reg.pidB_ki 0x148 14,
  int32_t  Reg.pidB_kd 0x14C 14,
  int32_t  Reg.pidB_in 0x150 14,
  int32_t  Reg.pidB_out 0x154 14,
  uint32_t Reg.pidB_ctrl 0x158 3,
  int32_t  Reg.ctrl_B 0x15C 14,
  int32_t  Reg.aux_A 0x160 14,
  int32_t  Reg.aux_B 0x164 14
]

/-- Size in bytes of one field: both int32_t and uint32_t are 4 bytes wide. -/
def fieldSize : Nat := 4

/-- Byte offset of the field at zero-based position i of the record: all
fields are 4 bytes wide and 4-byte aligned, so there is no padding. -/
def offsetAt (i : Nat) : Nat := fieldSize * i

/-- The sizeof of the record lock_reg_t in bytes. -/
def sizeof_lock_reg_t : Nat := fieldSize * lock_reg_t.length

/-- Zero-based position of a register in the declaration order. -/
def slotOf (r : Reg) : Nat := lock_reg_t.findIdx (fun f => f.name == r)

/-- The declaration of a register, looked up by name in lock_reg_t. -/
def fieldOf (r : Reg) : Field :=
  (lock_reg_t.find? (fun f => f.name == r)).getD ⟨r, false, 0, 0⟩

/-- Byte offset of a register inside the record. -/
def offsetOf (r : Reg) : Nat := offsetAt (slotOf r)

/-! ## Words, data bits and the register block -/

/-- The 32-bit word a C assignment stores in a 4-byte field for the integer v:
v reduced modulo 2^32 (two's complement for int32_t, wrap-around for
uint32_t). -/
def toWord (v : Int) : Nat := (v % 2 ^ 32).toNat

/-- The data bits [w-1:0] of a 32-bit word. -/
def dataBits (w word : Nat) : Nat := word % 2 ^ w

/-- The bits [31:w] of a 32-bit word (the Reserved bits of a field with w data
bits), shifted down to bit 0. -/
def reservedBits (w word : Nat) : Nat := word / 2 ^ w

/-- Sign extension of a w-bit pattern x: bit w-1 is the sign bit. -/
def signExtend (w x : Nat) : Int := if 2 ^ (w - 1) ≤ x then (x : Int) - 2 ^ w else (x : Int)

/-- The value of a field read from a word: the word masked to the data bits
of the field, sign-extended when the field is declared int32_t. -/
def readField (f : Field) (word : Nat) : Int :=
  if f.signed then signExtend f.width (dataBits f.width word) else (dataBits f.width word : Int)

/-- The documented range of a field with w data bits: 0..2^w-1 when declared
uint32_t, -2^(w-1)..2^(w-1)-1 when declared int32_t. -/
def inRange (f : Field) (v : Int) : Prop :=
  if f.signed then -(2 ^ (f.width - 1) : Int) ≤ v ∧ v < 2 ^ (f.width - 1)
  else 0 ≤ v ∧ v < 2 ^ f.width

instance (f : Field) (v : Int) : Decidable (inRange f v) :=
  inferInstanceAs (Decidable (if f.signed then -(2 ^ (f.width - 1) : Int) ≤ v ∧ v < 2 ^ (f.width - 1)
    else 0 ≤ v ∧ v < 2 ^ f.width))

/-- The register block as the header describes it: a direct image of memory,
one 32-bit word at each byte offset. -/
abbrev Block := Nat → Nat

/-- The 32-bit read at a byte offset of the block. -/
def read32 (b : Block) (off : Nat) : Nat := b off

/-- The 32-bit write at a byte offset of the block. -/
def write32 (b : Block) (off : Nat) (word : Nat) : Block :=
  fun o => if o = off then word else b o

/-- The assignment g_lock_reg->r = v: the word of v is written at the offset
of the field r. -/
def storeReg (b : Block) (r : Reg) (v : Int) : Block :=
  write32 b (offsetOf r) (toWord v)

/-- The read of g_lock_reg->r, masked to the data bits of r and sign-extended
when r is declared int32_t. -/
def loadReg (b : Block) (r : Reg) : Int :=
  readField (fieldOf r) (read32 b (offsetOf r))

/-- Effective gain of a (coefficient, shift) pair: coefficient / 2^shift. -/
def effectiveGain (coefficient : Int) (shift : Nat) : Rat := (coefficient : Rat) / 2 ^ shift

/-! ## Register groups named by the specification -/

/-- The signal-value registers with a 14-bit data field. -/
def signalRegs : List Reg :=
  [.in1, .in2, .out1, .out2, .oscA, .oscB, .signal_i, .error, .ramp_A, .ramp_B,
   .sin_ref, .cos_ref, .cos_1f, .cos_2f, .cos_3f, .pidA_in, .pidA_out, .pidB_in,
   .pidB_out, .ctrl_A, .ctrl_B, .sf_jumpA, .sf_jumpB]

/-- The demodulated registers. -/
def demodRegs : List Reg := [.X_28, .Y_28, .F1_28, .F2_28, .F3_28]

/-- The selector registers. -/
def selectorRegs : List Reg :=
  [.oscA_sw, .oscB_sw, .trig_sw, .out1_sw, .out2_sw, .lock_trig_sw, .rl_signal_sw,
   .signal_sw, .error_sw, .pidA_sw, .pidB_sw]

/-- The counter and period registers. -/
def counterRegs : List Reg := [.cnt_clk, .cnt_clk2, .lock_trig_time, .ramp_step, .gen_mod_hp]

/-- The registers of the PID A sub-block, in declaration order. -/
def pidARegs : List Reg :=
  [.pidA_sw, .pidA_PSR, .pidA_ISR, .pidA_DSR, .pidA_SAT, .pidA_sp, .pidA_kp, .pidA_ki,
   .pidA_kd, .pidA_in, .pidA_out, .pidA_ctrl, .ctrl_A]

/-- The registers of the PID B sub-block, in declaration order. -/
def pidBRegs : List Reg :=
  [.pidB_sw, .pidB_PSR, .pidB_ISR, .pidB_DSR, .pidB_SAT, .pidB_sp, .pidB_kp, .pidB_ki,
   .pidB_kd, .pidB_in, .pidB_out, .pidB_ctrl, .ctrl_B]

/-! ## Derived ramp output -/

/-- Clamp of x to the interval lo..hi. -/
def clamp (x lo hi : Int) : Int := if x < lo then lo else if hi < x then hi else x

/-- Modelled from the spec: the logic deriving ramp_B is not in the header,
which only documents ramp_B=ramp_A*ramp_B_factor/4096 on ramp_B_factor.  This
is the quotient before clamping, with the division of C (towards zero). -/
def ramp_B_quotient (ramp_A ramp_B_factor : Int) : Int :=
  Int.tdiv (ramp_A * ramp_B_factor) 4096

/-- Modelled from the spec: the logic deriving ramp_B is not in the header.
Section 4.3: ramp_B is ramp_A * ramp_B_factor / 4096, clamped (not wrapped) to
the signed 14-bit range. -/
def ramp_B_derived (ramp_A ramp_B_factor : Int) : Int :=
  clamp (ramp_B_quotient ramp_A ramp_B_factor) (-8192) 8191

/-! ## Relock supervisor -/

/-- Modelled from the spec: the relock logic is not in the header.  Section 3:
the relock state is one of idle, searching, locked, failed. -/
inductive RlState where
  | idle | searching | locked | failed
  deriving DecidableEq, Repr

/-- Modelled from the spec: the relock logic is not in the header.  The state
of the supervisor: the enumerated state, the two latched flags read from
rl_state, and the two dwell counts (consecutive ticks with |error| above the
threshold, consecutive ticks with neither fail condition). -/
structure Relock where
  state : RlState
  signal_fail : Bool
  error_fail : Bool
  err_ticks : Nat
  ok_ticks : Nat
  deriving DecidableEq, Repr

/-- Modelled from the spec: the relock logic is not in the header.  The
configuration registers the supervisor reads, named as in lock_reg_t. -/
structure RlRegs where
  rl_config : Nat
  rl_error_threshold : Nat
  rl_signal_threshold : Int
  lock_trig_time : Nat
  deriving DecidableEq, Repr

/-- Modelled from the spec: the relock logic is not in the header.  The
samples of one tick: the error signal and the monitored signal selected by
rl_signal_sw. -/
structure RlSample where
  error : Int
  signal : Int
  deriving DecidableEq, Repr

/-- Bit 0 of rl_config, whose comment lists the bits from the most significant
one: [relock_reset,enable_signal_th,enable_error_th]. -/
def enable_error_th (c : RlRegs) : Bool := c.rl_config % 2 == 1

/-- Bit 1 of rl_config. -/
def enable_signal_th (c : RlRegs) : Bool := c.rl_config / 2 % 2 == 1

/-- Bit 2 of rl_config. -/
def relock_reset (c : RlRegs) : Bool := c.rl_config / 4 % 2 == 1

/-- Modelled from the spec: the relock logic is not in the header.  The error
condition of a tick: enable_error_th and |error| > rl_error_threshold. -/
def errorOver (c : RlRegs) (x : RlSample) : Bool :=
  enable_error_th c && decide (c.rl_error_threshold < x.error.natAbs)

/-- Modelled from the spec: the relock logic is not in the header.  The signal
condition of a tick: enable_signal_th and signal < rl_signal_threshold. -/
def signalUnder (c : RlRegs) (x : RlSample) : Bool :=
  enable_signal_th c && decide (x.signal < c.rl_signal_threshold)

/-- Modelled from the spec: the relock logic is not in the header.  Initial
state at power-up/reset is idle. -/
def Relock.init : Relock := ⟨.idle, false, false, 0, 0⟩

/-- Modelled from the spec: the relock logic is not in the header.  One tick of
the supervisor, section 4.5: in failed the state persists until relock_reset,
which clears both flags and moves to idle; idle re-enters searching; in
searching and locked the signal condition latches signal_fail at once and the
error condition latches error_fail once it has held for lock_trig_time
consecutive ticks, either moving the state to failed; searching becomes locked
once neither condition has held for lock_trig_time consecutive ticks. -/
def rl_tick (c : RlRegs) (s : Relock) (x : RlSample) : Relock :=
  match s.state with
  | .failed =>
    if relock_reset c then ⟨.idle, false, false, 0, 0⟩ else s
  | .idle => ⟨.searching, s.signal_fail, s.error_fail, 0, 0⟩
  | st =>
    let over := errorOver c x
    let under := signalUnder c x
    let held := if over then s.err_ticks + 1 else 0
    let errTrip := over && decide (c.lock_trig_time ≤ held)
    if errTrip || under then
      ⟨.failed, s.signal_fail || under, s.error_fail || errTrip, held, 0⟩
    else if over then
      ⟨st, s.signal_fail, s.error_fail, held, 0⟩
    else if decide (c.lock_trig_time ≤ s.ok_ticks + 1) then
      ⟨.locked, s.signal_fail, s.error_fail, 0, s.ok_ticks + 1⟩
    else
      ⟨st, s.signal_fail, s.error_fail, 0, s.ok_ticks + 1⟩

/-- Modelled from the spec: the relock logic is not in the header.  The
supervisor run over a sequence of ticks, one sample per tick. -/
def rl_run (c : RlRegs) (s : Relock) (xs : List RlSample) : Relock :=
  xs.foldl (rl_tick c) s

end FpgaLock

/-! ## Layout of the record -/

namespace FpgaLock

/-- Every register name is declared exactly where the lookup finds it: the
field found for r is named r and sits at position slotOf r of lock_reg_t. -/
theorem fieldOf_spec (r : Reg) :
    (fieldOf r).name = r ∧ lock_reg_t.get? (slotOf r) = some (fieldOf r) := by
  cases r <;> exact ⟨rfl, rfl⟩

/-- Every data field is between 1 and 32 bits wide. -/
theorem width_bounds (r : Reg) : 1 ≤ (fieldOf r).width ∧ (fieldOf r).width ≤ 32 := by
  cases r <;> decide

/-- Distinct registers have distinct byte offsets. -/
theorem offsetOf_injective (q r : Reg) (h : offsetOf q = offsetOf r) : q = r := by
  have hq := (fieldOf_spec q).2
  have hr := (fieldOf_spec r).2
  have hs : slotOf q = slotOf r := by
    unfold offsetOf offsetAt fieldSize at h
    omega
  rw [hs, hr] at hq
  have hn : (fieldOf q).name = (fieldOf r).name := by
    rw [Option.some.inj hq]
  rw [(fieldOf_spec q).1, (fieldOf_spec r).1] at hn
  exact hn

/-- C1: the byte offset of every field of lock_reg_t, 4 times its position in
declaration order, equals the offset documented in its comment; the seven
offsets named by the claim hold, each register name is declared once, and
the offsets step by exactly 4 from one field to the next. -/
theorem lock_reg_t_offsets :
    lock_reg_t.map Field.docOffset = (List.range lock_reg_t.length).map offsetAt ∧
    (∀ r : Reg, offsetOf r = (fieldOf r).docOffset) ∧
    (lock_reg_t.map Field.name).Nodup ∧
    offsetOf .oscA_sw = 0x00 ∧ offsetOf .rl_state = 0x3C ∧ offsetOf .ramp_A = 0x88 ∧
    offsetOf .cnt_clk = 0xEC ∧ offsetOf .pidA_sw = 0xF8 ∧ offsetOf .pidB_sw = 0x12C ∧
    offsetOf .aux_B = 0x164 ∧
    List.Chain' (fun a b => b = a + 4) (lock_reg_t.map Field.docOffset) := by
  refine ⟨by decide, ?_, by decide, by decide, by decide, by decide, by decide, by decide,
    by decide, by decide, ?_⟩
  · intro r
    cases r <;> rfl
  · simp [lock_reg_t, uint32_t, int32_t]

/-- C2: the register block is 0x190 bytes, that is 100 slots of 4 bytes; the
record has 90 fields and is 0x168 bytes, and every register lies wholly
inside the block. -/
theorem lock_reg_t_inside_block :
    LOCK_BASE_SIZE = 0x190 ∧ LOCK_BASE_SIZE = 100 * fieldSize ∧
    lock_reg_t.length = 90 ∧ sizeof_lock_reg_t = 90 * 4 ∧ sizeof_lock_reg_t = 0x168 ∧
    sizeof_lock_reg_t ≤ LOCK_BASE_SIZE ∧
    (∀ r : Reg, offsetOf r + fieldSize ≤ LOCK_BASE_SIZE ∧
      (fieldOf r).docOffset + fieldSize ≤ LOCK_BASE_SIZE) := by
  refine ⟨by decide, by decide, by decide, by decide, by decide, by decide, ?_⟩
  intro r
  cases r <;> decide

/-! ## Signedness and widths of the register groups -/

/-- A field read through a 14-bit signed data field lies in -8192..8191,
whatever the word. -/
theorem signExtend_14_range (word : Nat) :
    -8192 ≤ signExtend 14 (dataBits 14 word) ∧ signExtend 14 (dataBits 14 word) ≤ 8191 := by
  unfold signExtend dataBits
  have h : word % 2 ^ 14 < 2 ^ 14 := Nat.mod_lt _ (by norm_num)
  split <;> norm_num at * <;> omega

/-- C3: every listed signal-value register is declared int32_t with 14 data
bits, so the value read from any word, masked and sign-extended, lies in
-8192..8191; and a register is declared int32_t with 28 data bits exactly
when it is one of X_28, Y_28, F1_28, F2_28, F3_28. -/
theorem signal_regs_signed_14 (r : Reg) (word : Nat) :
    (r ∈ signalRegs →
      (fieldOf r).signed = true ∧ (fieldOf r).width = 14 ∧
      -8192 ≤ readField (fieldOf r) word ∧ readField (fieldOf r) word ≤ 8191) ∧
    (((fieldOf r).signed = true ∧ (fieldOf r).width = 28) ↔ r ∈ demodRegs) ∧
    ((fieldOf r).width = 28 ↔ r ∈ demodRegs) := by
  refine ⟨?_, ?_, ?_⟩
  · intro h
    have hs : (fieldOf r).signed = true ∧ (fieldOf r).width = 14 := by
      revert h
      cases r <;> decide
    refine ⟨hs.1, hs.2, ?_⟩
    unfold readField
    rw [hs.1, hs.2]
    exact signExtend_14_range word
  · cases r <;> decide
  · cases r <;> decide

/-- Witness of C3 at the register in1 and the word 0x2000, whose 14-bit field
reads -8192. -/
theorem signal_regs_signed_14_witness :
    Reg.in1 ∈ signalRegs ∧
    ((fieldOf .in1).signed = true ∧ (fieldOf .in1).width = 14 ∧
      -8192 ≤ readField (fieldOf .in1) 0x2000 ∧ readField (fieldOf .in1) 0x2000 ≤ 8191) :=
  ⟨by decide, (signal_regs_signed_14 .in1 0x2000).1 (by decide)⟩

/-- C4, as stated, fails: trig_sw is a selector register and its documented
data field is bits [7:0], 8 bits wide, outside 3..5. -/
theorem selector_width_counterexample :
    Reg.trig_sw ∈ selectorRegs ∧ (fieldOf .trig_sw).width = 8 ∧
    ¬ (∀ r ∈ selectorRegs, (fieldOf r).signed = false ∧
        3 ≤ (fieldOf r).width ∧ (fieldOf r).width ≤ 5) := by
  refine ⟨by decide, by decide, ?_⟩
  intro h
  exact absurd (h .trig_sw (by decide)).2.2 (by decide)

/-- C4, amended: every selector register is declared uint32_t; trig_sw has an
8-bit data field and every other selector a data field of 3 to 5 bits. -/
theorem selector_regs_unsigned (r : Reg) (h : r ∈ selectorRegs) :
    (fieldOf r).signed = false ∧
    (r = .trig_sw → (fieldOf r).width = 8) ∧
    (r ≠ .trig_sw → 3 ≤ (fieldOf r).width ∧ (fieldOf r).width ≤ 5) := by
  revert h
  cases r <;> decide

/-- Witness of the amended C4 at oscA_sw. -/
theorem selector_regs_unsigned_witness :
    Reg.oscA_sw ∈ selectorRegs ∧ (fieldOf .oscA_sw).signed = false ∧
    (Reg.oscA_sw = .trig_sw → (fieldOf .oscA_sw).width = 8) ∧
    (Reg.oscA_sw ≠ .trig_sw → 3 ≤ (fieldOf .oscA_sw).width ∧ (fieldOf .oscA_sw).width ≤ 5) :=
  ⟨by decide, selector_regs_unsigned .oscA_sw (by decide)⟩

/-- C5, as stated, fails: the harmonic period gen_mod_hp is documented with
data bits [13:0] and reserved bits [31:14], not a full 32-bit field. -/
theorem counter_width_counterexample :
    Reg.gen_mod_hp ∈ counterRegs ∧ (fieldOf .gen_mod_hp).width = 14 ∧
    ¬ (∀ r ∈ counterRegs, (fieldOf r).signed = false ∧ (fieldOf r).width = 32) := by
  refine ⟨by decide, by decide, ?_⟩
  intro h
  exact absurd (h .gen_mod_hp (by decide)).2 (by decide)

/-- C5, amended: every counter and period register is declared uint32_t;
cnt_clk, cnt_clk2, lock_trig_time and ramp_step have a full 32-bit data field,
gen_mod_hp a 14-bit data field. -/
theorem counter_regs_unsigned (r : Reg) (h : r ∈ counterRegs) :
    (fieldOf r).signed = false ∧
    (r = .gen_mod_hp → (fieldOf r).width = 14) ∧
    (r ≠ .gen_mod_hp → (fieldOf r).width = 32) := by
  revert h
  cases r <;> decide

/-- Witness of the amended C5 at cnt_clk. -/
theorem counter_regs_unsigned_witness :
    Reg.cnt_clk ∈ counterRegs ∧ (fieldOf .cnt_clk).signed = false ∧
    (Reg.cnt_clk = .gen_mod_hp → (fieldOf .cnt_clk).width = 14) ∧
    (Reg.cnt_clk ≠ .gen_mod_hp → (fieldOf .cnt_clk).width = 32) :=
  ⟨by decide, counter_regs_unsigned .cnt_clk (by decide)⟩

/-- C10: the 13 registers of PID A and of PID B are consecutive fields of the
record, and each PID B register sits 0x34 bytes after its PID A counterpart
with the same declared signedness and the same documented width. -/
theorem pid_blocks_same_layout (a b : Reg) (h : (a, b) ∈ pidARegs.zip pidBRegs) :
    offsetOf b = offsetOf a + 0x34 ∧
    (fieldOf b).docOffset = (fieldOf a).docOffset + 0x34 ∧
    (fieldOf b).signed = (fieldOf a).signed ∧
    (fieldOf b).width = (fieldOf a).width ∧
    pidARegs.length = 13 ∧ pidBRegs.length = 13 ∧
    pidARegs = ((lock_reg_t.drop (slotOf .pidA_sw)).take 13).map Field.name ∧
    pidBRegs = ((lock_reg_t.drop (slotOf .pidB_sw)).take 13).map Field.name := by
  have key : ∀ p ∈ pidARegs.zip pidBRegs,
      offsetOf p.2 = offsetOf p.1 + 0x34 ∧
      (fieldOf p.2).docOffset = (fieldOf p.1).docOffset + 0x34 ∧
      (fieldOf p.2).signed = (fieldOf p.1).signed ∧
      (fieldOf p.2).width = (fieldOf p.1).width := by decide
  obtain ⟨h1, h2, h3, h4⟩ := key (a, b) h
  exact ⟨h1, h2, h3, h4, by decide, by decide, by decide, by decide⟩

/-- Witness of C10 at the pair pidA_kp, pidB_kp. -/
theorem pid_blocks_same_layout_witness :
    (Reg.pidA_kp, Reg.pidB_kp) ∈ pidARegs.zip pidBRegs ∧
    offsetOf .pidB_kp = offsetOf .pidA_kp + 0x34 ∧
    (fieldOf .pidB_kp).signed = (fieldOf .pidA_kp).signed ∧
    (fieldOf .pidB_kp).width = (fieldOf .pidA_kp).width := by
  have h := pid_blocks_same_layout .pidA_kp .pidB_kp (by decide)
  exact ⟨by decide, h.1, h.2.2.1, h.2.2.2.1⟩

/-! ## Storing and reading registers -/

/-- An unsigned value inside a w-bit field is read back from its word. -/
theorem roundtrip_unsigned (w : Nat) (hw : w ≤ 32) (v : Int) (h0 : 0 ≤ v) (h1 : v < 2 ^ w) :
    (dataBits w (toWord v) : Int) = v := by
  unfold dataBits toWord
  interval_cases w <;> norm_num at * <;> omega

/-- A signed value inside a w-bit field is read back from its word. -/
theorem roundtrip_signed (w : Nat) (hw1 : 1 ≤ w) (hw : w ≤ 32) (v : Int)
    (h0 : -(2 ^ (w - 1) : Int) ≤ v) (h1 : v < 2 ^ (w - 1)) :
    signExtend w (dataBits w (toWord v)) = v := by
  unfold signExtend dataBits toWord
  interval_cases w <;> norm_num at * <;> split <;> omega

/-- The word of a non-negative value below 2^w has no bit set at or above w. -/
theorem reserved_zero_of_nonneg (w : Nat) (hw : w < 32) (v : Int) (h0 : 0 ≤ v)
    (h1 : v < 2 ^ w) : reservedBits w (toWord v) = 0 := by
  unfold reservedBits toWord
  interval_cases w <;> norm_num at * <;> omega

/-- The word of a negative value not below -2^(w-1) has every bit at or above
w set. -/
theorem reserved_ones_of_neg (w : Nat) (hw1 : 1 ≤ w) (hw : w < 32) (v : Int) (h0 : v < 0)
    (h1 : -(2 ^ (w - 1) : Int) ≤ v) : reservedBits w (toWord v) = 2 ^ (32 - w) - 1 := by
  unfold reservedBits toWord
  interval_cases w <;> norm_num at * <;> omega

/-- A value in the documented range of a register is read back after being
stored. -/
theorem loadReg_storeReg_same (b : Block) (r : Reg) (v : Int) (h : inRange (fieldOf r) v) :
    loadReg (storeReg b r v) r = v := by
  have hw := width_bounds r
  unfold loadReg storeReg read32 write32 readField
  unfold inRange at h
  simp only [if_true]
  cases hs : (fieldOf r).signed
  · simp only [hs] at h
    simpa using roundtrip_unsigned _ hw.2 v h.1 h.2
  · simp only [hs, if_true] at h
    simpa using roundtrip_signed _ hw.1 hw.2 v h.1 h.2

/-- Storing a register leaves the word of every other register as it was. -/
theorem read32_storeReg_other (b : Block) (r q : Reg) (v : Int) (h : q ≠ r) :
    read32 (storeReg b r v) (offsetOf q) = read32 b (offsetOf q) := by
  unfold storeReg read32 write32
  have hne : offsetOf q ≠ offsetOf r := fun e => h (offsetOf_injective q r e)
  simp [hne]

/-- C6: storing a value of the documented range of a register and reading the
register back, masked to its data bits and sign-extended when it is signed,
returns the value; the word and the value of every other register are
unchanged; and with pidA_kp = 16 and pidA_PSR = 2 stored, both read back and
the effective gain 16 / 2^2 is 4. -/
theorem store_load_roundtrip (b : Block) (r : Reg) (v : Int) (h : inRange (fieldOf r) v) :
    loadReg (storeReg b r v) r = v ∧
    (∀ q : Reg, q ≠ r →
      read32 (storeReg b r v) (offsetOf q) = read32 b (offsetOf q) ∧
      loadReg (storeReg b r v) q = loadReg b q) ∧
    (loadReg (storeReg (storeReg b .pidA_kp 16) .pidA_PSR 2) .pidA_kp = 16 ∧
     loadReg (storeReg (storeReg b .pidA_kp 16) .pidA_PSR 2) .pidA_PSR = 2 ∧
     effectiveGain (loadReg (storeReg (storeReg b .pidA_kp 16) .pidA_PSR 2) .pidA_kp)
       (loadReg (storeReg (storeReg b .pidA_kp 16) .pidA_PSR 2) .pidA_PSR).toNat = 4) := by
  have other : ∀ (b : Block) (r q : Reg) (v : Int), q ≠ r →
      loadReg (storeReg b r v) q = loadReg b q := by
    intro b r q v hq
    unfold loadReg
    rw [read32_storeReg_other b r q v hq]
  have hkp : loadReg (storeReg (storeReg b .pidA_kp 16) .pidA_PSR 2) .pidA_kp = 16 := by
    rw [other _ _ _ _ (by decide)]
    exact loadReg_storeReg_same b .pidA_kp 16 (by decide)
  have hpsr : loadReg (storeReg (storeReg b .pidA_kp 16) .pidA_PSR 2) .pidA_PSR = 2 :=
    loadReg_storeReg_same _ .pidA_PSR 2 (by decide)
  refine ⟨loadReg_storeReg_same b r v h, ?_, hkp, hpsr, ?_⟩
  · intro q hq
    exact ⟨read32_storeReg_other b r q v hq, other b r q v hq⟩
  · rw [hkp, hpsr]
    have h2 : Int.toNat 2 = 2 := rfl
    rw [h2]
    norm_num [effectiveGain]

/-- Witness of C6: -5 stored in pidA_kp of the all-zero block reads back -5. -/
theorem store_load_roundtrip_witness :
    inRange (fieldOf .pidA_kp) (-5) ∧
    loadReg (storeReg (fun _ => 0) .pidA_kp (-5)) .pidA_kp = -5 :=
  ⟨by decide, (store_load_roundtrip (fun _ => 0) .pidA_kp (-5) (by decide)).1⟩

/-- C7, as stated, fails: -1 is in the documented range of pidA_kp (14 data
bits, declared int32_t) and the word stored for it is 0xFFFFFFFF, whose bits
[31:14] are all one. -/
theorem reserved_bits_counterexample :
    (fieldOf .pidA_kp).width = 14 ∧ inRange (fieldOf .pidA_kp) (-1) ∧
    read32 (storeReg (fun _ => 0) .pidA_kp (-1)) (offsetOf .pidA_kp) = 0xFFFFFFFF ∧
    reservedBits (fieldOf .pidA_kp).width
      (read32 (storeReg (fun _ => 0) .pidA_kp (-1)) (offsetOf .pidA_kp)) = 0x3FFFF ∧
    reservedBits (fieldOf .pidA_kp).width
      (read32 (storeReg (fun _ => 0) .pidA_kp (-1)) (offsetOf .pidA_kp)) ≠ 0 := by
  decide

/-- C7, amended: for a register with w < 32 data bits and a value v of its
documented range, the word stored for v has bits [31:w] all zero when v is
not negative, and all one when v is negative (a register declared int32_t). -/
theorem reserved_bits_on_write (b : Block) (r : Reg) (v : Int)
    (hw : (fieldOf r).width < 32) (h : inRange (fieldOf r) v) :
    read32 (storeReg b r v) (offsetOf r) = toWord v ∧
    (0 ≤ v → reservedBits (fieldOf r).width (read32 (storeReg b r v) (offsetOf r)) = 0) ∧
    (v < 0 → (fieldOf r).signed = true ∧
      reservedBits (fieldOf r).width (read32 (storeReg b r v) (offsetOf r)) =
        2 ^ (32 - (fieldOf r).width) - 1) := by
  have hb := width_bounds r
  have hst : read32 (storeReg b r v) (offsetOf r) = toWord v := by
    simp [storeReg, read32, write32]
  rw [hst]
  unfold inRange at h
  cases hs : (fieldOf r).signed
  · simp only [hs] at h
    refine ⟨rfl, fun _ => reserved_zero_of_nonneg _ hw v h.1 h.2, fun hneg => ?_⟩
    exact absurd h.1 (not_le.mpr hneg)
  · simp only [hs, if_true] at h
    refine ⟨rfl, fun h0 => ?_, fun hneg => ⟨rfl, reserved_ones_of_neg _ hb.1 hw v hneg h.1⟩⟩
    have hlt : (2 : Int) ^ ((fieldOf r).width - 1) ≤ 2 ^ (fieldOf r).width :=
      pow_le_pow_right₀ (by norm_num) (Nat.sub_le _ _)
    exact reserved_zero_of_nonneg _ hw v h0 (lt_of_lt_of_le h.2 hlt)

/-- Witness of the amended C7: 5 stored in pidA_kp leaves bits [31:14] zero. -/
theorem reserved_bits_on_write_witness :
    (fieldOf .pidA_kp).width < 32 ∧ inRange (fieldOf .pidA_kp) 5 ∧
    reservedBits (fieldOf .pidA_kp).width
      (read32 (storeReg (fun _ => 0) .pidA_kp 5) (offsetOf .pidA_kp)) = 0 :=
  ⟨by decide, by decide,
    (reserved_bits_on_write (fun _ => 0) .pidA_kp 5 (by decide) (by decide)).2.1 (by decide)⟩

/-! ## Derived ramp output -/

/-- The clamp of any value to -8192..8191 lies in that interval. -/
theorem clamp_14_range (x : Int) : -8192 ≤ clamp x (-8192) 8191 ∧ clamp x (-8192) 8191 ≤ 8191 := by
  unfold clamp
  split
  · omega
  · split <;> omega

/-- The quotient of a product of two signed 14-bit values by 4096 lies in
-16384..16384. -/
theorem ramp_B_quotient_bounds (a f : Int) (ha0 : -8192 ≤ a) (ha1 : a ≤ 8191)
    (hf0 : -8192 ≤ f) (hf1 : f ≤ 8191) :
    -16384 ≤ ramp_B_quotient a f ∧ ramp_B_quotient a f ≤ 16384 := by
  have hup : a * f ≤ 67108864 := by nlinarith
  have hlo : -67108864 ≤ a * f := by nlinarith
  unfold ramp_B_quotient
  generalize a * f = p at hup hlo
  rcases le_or_lt 0 p with hp | hp
  · rw [Int.tdiv_eq_ediv hp (by norm_num)]
    omega
  · have hneg : Int.tdiv p 4096 = -Int.tdiv (-p) 4096 := by
      rw [Int.neg_tdiv, neg_neg]
    rw [hneg, Int.tdiv_eq_ediv (by omega) (by norm_num)]
    omega

/-- C8: for ramp_A and ramp_B_factor in the signed 14-bit range, the derived
ramp_B, the clamp of ramp_A * ramp_B_factor / 4096 to -8192..8191, lies in the
documented range of the register ramp_B and is read back from it unchanged;
the quotient before the clamp lies in -16384..16384 and reaches 16384 at
ramp_A = ramp_B_factor = -8192, where the clamp yields 8191. -/
theorem ramp_B_fits (b : Block) (ramp_A ramp_B_factor : Int)
    (hA : inRange (fieldOf .ramp_A) ramp_A)
    (hF : inRange (fieldOf .ramp_B_factor) ramp_B_factor) :
    ramp_B_derived ramp_A ramp_B_factor =
      clamp (Int.tdiv (ramp_A * ramp_B_factor) 4096) (-8192) 8191 ∧
    -8192 ≤ ramp_B_derived ramp_A ramp_B_factor ∧
    ramp_B_derived ramp_A ramp_B_factor ≤ 8191 ∧
    inRange (fieldOf .ramp_B) (ramp_B_derived ramp_A ramp_B_factor) ∧
    loadReg (storeReg b .ramp_B (ramp_B_derived ramp_A ramp_B_factor)) .ramp_B =
      ramp_B_derived ramp_A ramp_B_factor ∧
    -16384 ≤ ramp_B_quotient ramp_A ramp_B_factor ∧
    ramp_B_quotient ramp_A ramp_B_factor ≤ 16384 ∧
    ramp_B_quotient (-8192) (-8192) = 16384 ∧
    ramp_B_derived (-8192) (-8192) = 8191 := by
  have hfA : fieldOf .ramp_A = int32_t .ramp_A 0x88 14 := rfl
  have hfF : fieldOf .ramp_B_factor = int32_t .ramp_B_factor 0xA8 14 := rfl
  have hfB : fieldOf .ramp_B = int32_t .ramp_B 0x8C 14 := rfl
  rw [hfA] at hA
  rw [hfF] at hF
  simp only [inRange, int32_t, if_true] at hA hF
  norm_num at hA hF
  have hc := clamp_14_range (ramp_B_quotient ramp_A ramp_B_factor)
  have hq := ramp_B_quotient_bounds ramp_A ramp_B_factor hA.1 (by omega) hF.1 (by omega)
  have hin : inRange (fieldOf .ramp_B) (ramp_B_derived ramp_A ramp_B_factor) := by
    rw [hfB]
    simp only [inRange, int32_t, if_true]
    unfold ramp_B_derived
    norm_num
    omega
  exact ⟨rfl, hc.1, hc.2, hin, loadReg_storeReg_same b .ramp_B _ hin, hq.1, hq.2,
    by decide, by decide⟩

/-- Witness of C8 at ramp_A = ramp_B_factor = -8192, where only the clamp keeps
the value in range. -/
theorem ramp_B_fits_witness :
    inRange (fieldOf .ramp_A) (-8192) ∧ inRange (fieldOf .ramp_B_factor) (-8192) ∧
    inRange (fieldOf .ramp_B) (ramp_B_derived (-8192) (-8192)) ∧
    ¬ inRange (fieldOf .ramp_B) (ramp_B_quotient (-8192) (-8192)) :=
  ⟨by decide, by decide,
    (ramp_B_fits (fun _ => 0) (-8192) (-8192) (by decide) (by decide)).2.2.2.1, by decide⟩

/-! ## Relock supervisor -/

/-- One tick in searching or locked with the error condition holding, the
signal condition not holding and the dwell not yet reached: the state and the
flags stay and the dwell count advances by one. -/
theorem rl_tick_over (c : RlRegs) (s : Relock) (x : RlSample)
    (hs : s.state = .locked ∨ s.state = .searching)
    (ho : errorOver c x = true) (hu : signalUnder c x = false)
    (hlt : s.err_ticks + 1 < c.lock_trig_time) :
    rl_tick c s x = ⟨s.state, s.signal_fail, s.error_fail, s.err_ticks + 1, 0⟩ := by
  have hn : ¬ c.lock_trig_time ≤ s.err_ticks + 1 := by omega
  rcases hs with h | h <;> simp [rl_tick, h, ho, hu, hn]

/-- One tick in searching or locked with the error condition holding and the
dwell reached: the state becomes failed and error_fail is latched. -/
theorem rl_tick_trip (c : RlRegs) (s : Relock) (x : RlSample)
    (hs : s.state = .locked ∨ s.state = .searching)
    (ho : errorOver c x = true) (hge : c.lock_trig_time ≤ s.err_ticks + 1) :
    (rl_tick c s x).state = .failed ∧ (rl_tick c s x).error_fail = true := by
  rcases hs with h | h <;> simp [rl_tick, h, ho, hge]

/-- One tick in searching or locked with neither condition holding: the state
is not failed afterwards and error_fail is as before. -/
theorem rl_tick_quiet (c : RlRegs) (s : Relock) (x : RlSample)
    (hs : s.state = .locked ∨ s.state = .searching)
    (ho : errorOver c x = false) (hu : signalUnder c x = false) :
    (rl_tick c s x).state ≠ .failed ∧ (rl_tick c s x).error_fail = s.error_fail := by
  rcases hs with h | h
  · simp [rl_tick, h, ho, hu]
  · simp only [rl_tick, h, ho, hu]
    by_cases hk : c.lock_trig_time ≤ s.ok_ticks + 1 <;> simp [hk]

/-- A run of ticks shorter than the dwell, each with the error condition
holding and the signal condition not: the state and the flags stay and the
dwell count grows by the number of ticks. -/
theorem rl_run_over (c : RlRegs) (xs : List RlSample) :
    ∀ s : Relock, (s.state = .locked ∨ s.state = .searching) →
      (∀ x ∈ xs, errorOver c x = true ∧ signalUnder c x = false) →
      s.err_ticks + xs.length < c.lock_trig_time →
      (rl_run c s xs).state = s.state ∧
      (rl_run c s xs).signal_fail = s.signal_fail ∧
      (rl_run c s xs).error_fail = s.error_fail ∧
      (rl_run c s xs).err_ticks = s.err_ticks + xs.length := by
  induction xs with
  | nil => intro s _ _ _; simp [rl_run]
  | cons x xs ih =>
    intro s hs hall hlt
    have hx := hall x (List.mem_cons_self x xs)
    simp only [List.length_cons] at hlt
    have hstep := rl_tick_over c s x hs hx.1 hx.2 (by omega)
    have hrec := ih (rl_tick c s x) (by rw [hstep]; exact hs)
      (fun y hy => hall y (List.mem_cons_of_mem x hy)) (by rw [hstep]; simp only; omega)
    have hrun : rl_run c s (x :: xs) = rl_run c (rl_tick c s x) xs := rfl
    rw [hrun]
    rw [hstep] at hrec ⊢
    simp only at hrec
    refine ⟨hrec.1, hrec.2.1, hrec.2.2.1, ?_⟩
    rw [hrec.2.2.2, List.length_cons]
    omega

/-- A run over a list followed by one more sample is the run followed by one
tick. -/
theorem rl_run_append_one (c : RlRegs) (s : Relock) (xs : List RlSample) (y : RlSample) :
    rl_run c s (xs ++ [y]) = rl_tick c (rl_run c s xs) y := by
  simp [rl_run, List.foldl_append]

/-- A run splits at any point into a run followed by a run. -/
theorem rl_run_append (c : RlRegs) (s : Relock) (xs zs : List RlSample) :
    rl_run c s (xs ++ zs) = rl_run c (rl_run c s xs) zs := by
  simp [rl_run, List.foldl_append]

/-- While relock_reset is clear, a failed supervisor stays as it is. -/
theorem rl_run_failed (c : RlRegs) (hr : relock_reset c = false) (zs : List RlSample) :
    ∀ s : Relock, s.state = .failed → rl_run c s zs = s := by
  induction zs with
  | nil => intro s _; rfl
  | cons z zs ih =>
    intro s hs
    have hstep : rl_tick c s z = s := by simp [rl_tick, hs, hr]
    have hrun : rl_run c s (z :: zs) = rl_run c (rl_tick c s z) zs := rfl
    rw [hrun, hstep]
    exact ih s hs

/-- The tick after power-up leads from idle to searching with the dwell count
at 0 and error_fail clear. -/
theorem rl_tick_init (c : RlRegs) (x : RlSample) :
    (rl_tick c Relock.init x).state = .searching ∧
    (rl_tick c Relock.init x).err_ticks = 0 ∧
    (rl_tick c Relock.init x).error_fail = false := by
  simp [rl_tick, Relock.init]

/-- C9: with enable_error_th set, a positive dwell lock_trig_time, the
supervisor in locked or searching at the start of the stretch (dwell count 0,
error_fail clear) and the signal condition not firing: if |error| >
rl_error_threshold on lock_trig_time consecutive ticks, the state is failed
and error_fail is latched; if it holds on only lock_trig_time - 1 ticks and the
next tick has |error| at or below the threshold, the state is failed at no
tick and error_fail stays clear.  The latched outcome persists over any
further ticks while relock_reset is clear. -/
theorem relock_error_dwell (c : RlRegs) (s : Relock) (xs : List RlSample) (y : RlSample)
    (hen : enable_error_th c = true) (hN : 0 < c.lock_trig_time)
    (hs : s.state = .locked ∨ s.state = .searching)
    (hd : s.err_ticks = 0) (hf : s.error_fail = false)
    (hover : ∀ x ∈ xs, c.rl_error_threshold < x.error.natAbs ∧ signalUnder c x = false)
    (hy : y.error.natAbs ≤ c.rl_error_threshold ∧ signalUnder c y = false) :
    (xs.length = c.lock_trig_time →
      (rl_run c s xs).state = .failed ∧ (rl_run c s xs).error_fail = true ∧
      (relock_reset c = false → ∀ zs : List RlSample,
        (rl_run c s (xs ++ zs)).state = .failed ∧
        (rl_run c s (xs ++ zs)).error_fail = true)) ∧
    (xs.length = c.lock_trig_time - 1 →
      (∀ k : Nat, (rl_run c s (xs.take k)).state ≠ .failed ∧
        (rl_run c s (xs.take k)).error_fail = false) ∧
      (rl_run c s (xs ++ [y])).state ≠ .failed ∧
      (rl_run c s (xs ++ [y])).error_fail = false) := by
  have hall : ∀ x ∈ xs, errorOver c x = true ∧ signalUnder c x = false := by
    intro x hx
    have h := hover x hx
    exact ⟨by simp [errorOver, hen, h.1], h.2⟩
  have hnf : s.state ≠ .failed := by
    rcases hs with h | h <;> rw [h] <;> decide
  constructor
  · intro hlen
    have hne : xs ≠ [] := by
      intro e
      rw [e] at hlen
      simp at hlen
      omega
    have hsplit := List.dropLast_append_getLast hne
    have hpre := rl_run_over c xs.dropLast s hs
      (fun x hx => hall x (List.mem_of_mem_dropLast hx))
      (by rw [hd, List.length_dropLast]; omega)
    have hlast := (hall (xs.getLast hne) (List.getLast_mem hne)).1
    have hrun : rl_run c s xs = rl_tick c (rl_run c s xs.dropLast) (xs.getLast hne) := by
      rw [← rl_run_append_one, hsplit]
    have htrip : (rl_run c s xs).state = .failed ∧ (rl_run c s xs).error_fail = true := by
      rw [hrun]
      apply rl_tick_trip c _ _ (by rw [hpre.1]; exact hs) hlast
      rw [hpre.2.2.2, hd, List.length_dropLast]
      omega
    refine ⟨htrip.1, htrip.2, fun hr zs => ?_⟩
    rw [rl_run_append, rl_run_failed c hr zs _ htrip.1]
    exact htrip
  · intro hlen
    refine ⟨?_, ?_⟩
    · intro k
      have hpre := rl_run_over c (xs.take k) s hs
        (fun x hx => hall x (List.mem_of_mem_take hx))
        (by rw [hd, List.length_take]; omega)
      exact ⟨by rw [hpre.1]; exact hnf, by rw [hpre.2.2.1]; exact hf⟩
    · have hpre := rl_run_over c xs s hs hall (by rw [hd]; omega)
      have hquiet : errorOver c y = false := by
        simp [errorOver, hy.1]
      have hq := rl_tick_quiet c (rl_run c s xs) y (by rw [hpre.1]; exact hs) hquiet hy.2
      rw [rl_run_append_one]
      exact ⟨hq.1, by rw [hq.2, hpre.2.2.1]; exact hf⟩

/-- Witness of C9 with lock_trig_time = 3 and rl_error_threshold = 100, from
locked: three ticks with |error| = 200 end in failed with error_fail latched;
two such ticks followed by |error| = 100 leave the state locked and error_fail
clear. -/
theorem relock_error_dwell_witness :
    ((rl_run ⟨1, 100, 0, 3⟩ ⟨.locked, false, false, 0, 0⟩
        [⟨200, 0⟩, ⟨-200, 0⟩, ⟨200, 0⟩]).state = .failed ∧
      (rl_run ⟨1, 100, 0, 3⟩ ⟨.locked, false, false, 0, 0⟩
        [⟨200, 0⟩, ⟨-200, 0⟩, ⟨200, 0⟩]).error_fail = true) ∧
    ((rl_run ⟨1, 100, 0, 3⟩ ⟨.locked, false, false, 0, 0⟩
        ([⟨200, 0⟩, ⟨-200, 0⟩] ++ [⟨100, 0⟩])).state ≠ .failed ∧
      (rl_run ⟨1, 100, 0, 3⟩ ⟨.locked, false, false, 0, 0⟩
        ([⟨200, 0⟩, ⟨-200, 0⟩] ++ [⟨100, 0⟩])).error_fail = false) :=
  ⟨(relock_error_dwell ⟨1, 100, 0, 3⟩ ⟨.locked, false, false, 0, 0⟩
      [⟨200, 0⟩, ⟨-200, 0⟩, ⟨200, 0⟩] ⟨100, 0⟩ (by decide) (by decide) (by decide)
      (by decide) (by decide) (by decide) (by decide)).1 (by decide) |> fun h => ⟨h.1, h.2.1⟩,
   ((relock_error_dwell ⟨1, 100, 0, 3⟩ ⟨.locked, false, false, 0, 0⟩
      [⟨200, 0⟩, ⟨-200, 0⟩] ⟨100, 0⟩ (by decide) (by decide) (by decide)
      (by decide) (by decide) (by decide) (by decide)).2 (by decide)).2⟩

end FpgaLock
